import Mathlib

/-!
Shallow embedding of the reservation lineage / lifecycle reconciliation
engine of `aws_audit_exporter` (package `postgres`: `postgres.go` and the
revision carrying `InsertIntoPGReservationsListingsSales` /
`getOriginalReservationExpirationDate` with `original_end_date`).

Modelling conventions:
  * `time.Time` values are seconds since an arbitrary epoch, as `Int`
    (every comparison the code performs is at one-second granularity:
    dates are formatted/compared with a seconds-resolution layout).
  * `uint16` quantities (`Count`, `UnitsSold`) are `Nat` together with
    explicit `% 65536` at every operation that can wrap.
  * `int64` arithmetic that can overflow (`time.ParseDuration` of
    `term * 24 * 30` hours) is modelled with an explicit two's-complement
    wrap and the documented overflow bound of `ParseDuration`.
  * the relational store is a `DBState`: the `reservations` rows and the
    `reservations_relations` edges; a SQL filter becomes a `List.filter`,
    `ORDER BY x LIMIT 1` becomes "first row of minimal `x`".
  * DB writes and queries are reified as `PGEffect` values so that
    frame/effect claims ("no write happens") are statable.
-/

namespace AwsAudit

/-- A row of the `reservations` table (the fields the engine reads).
`lifecycle` is the text-array column of the `postgres.go` revision;
`originalEndDate` is the `original_end_date` column of the later revision. -/
structure Reservation where
  reservationID : Nat
  startDate : Int
  endDate : Int
  duration : Int
  count : Nat
  upfrontPrice : Nat
  offerClass : String
  region : String
  family : String
  offerType : String
  product : String
  tenancy : String
  lifecycle : List String
  state : String
  originalEndDate : Int
  listedOn : List Nat
deriving Repr, DecidableEq

/-- The store: `reservations` rows plus `reservations_relations`
parent→child edges `(parent_id, reservation_id)`. -/
structure DBState where
  reservations : List Reservation
  relations : List (Nat × Nat)
deriving Repr, DecidableEq

/-- `updateReservationLifecycleStatus` (postgres.go): `canceled`,
`unchanged` and `unknown` replace the whole set; any other status is
appended after filtering out `unchanged`, `unknown`, `canceled` and the
status itself. -/
def updateReservationLifecycleStatus (l : List String) (lifecycle : String) : List String :=
  if lifecycle = "canceled" then ["canceled"]
  else if lifecycle = "unchanged" then ["unchanged"]
  else if lifecycle = "unknown" then ["unknown"]
  else
    (l.filter fun s => !(s == "unchanged" || s == "unknown" || s == "canceled" || s == lifecycle))
      ++ [lifecycle]

/-- `r` with `updateReservationLifecycleStatus` applied to its tag set. -/
def setLifecycle (r : Reservation) (tag : String) : Reservation :=
  { r with lifecycle := updateReservationLifecycleStatus r.lifecycle tag }

/-- The family predicate of `queryBase` in
`findDirectDescendantsAndUpdateLifecycle`: same duration, offer class and
region, a different reservation id, and — when the offer class is not
`convertible` — also same family, offer type, product and tenancy. -/
def sameFamilyRow (r q : Reservation) : Bool :=
  q.duration == r.duration && q.offerClass == r.offerClass && q.region == r.region &&
    q.reservationID != r.reservationID &&
    (r.offerClass == "convertible" ||
      (q.family == r.family && q.offerType == r.offerType &&
        q.product == r.product && q.tenancy == r.tenancy))

/-- The sell-descendants query: family members with
`upfront_price = r.upfront_price` and `start_date = r.end_date + 1s`. -/
def sellDescendantsQuery (db : DBState) (r : Reservation) : List Reservation :=
  db.reservations.filter fun q =>
    sameFamilyRow r q && q.upfrontPrice == r.upfrontPrice && q.startDate == r.endDate + 1

/-- The conversion/exchange-descendants query: family members with
`start_date = r.end_date` exactly. -/
def convDescendantsQuery (db : DBState) (r : Reservation) : List Reservation :=
  db.reservations.filter fun q => sameFamilyRow r q && q.startDate == r.endDate

/-- `SELECT ... WHERE reservation_id = ?`: the stored row for an id. -/
def findReservation (db : DBState) (id : Nat) : Option Reservation :=
  db.reservations.find? fun q => q.reservationID == id

/-- The store queries `findDirectDescendantsAndUpdateLifecycle` and
`InsertIntoPGReservations` can issue, in issue order. -/
inductive QueryKind where
  | sellDescendants
  | convDescendants
  | selfLifecycle
  | farDescendants
deriving Repr, DecidableEq

/-- What `findDirectDescendantsAndUpdateLifecycle` produces: the
reservation with its lifecycle updated, the direct descendants found
(`none` mirrors the Go `nil`), and the queries issued. -/
structure ResolveResult where
  reservation : Reservation
  descendants : Option (List Reservation)
  queries : List QueryKind
deriving Repr, DecidableEq

/-- `findDirectDescendantsAndUpdateLifecycle` (postgres.go):
the unchanged check, then the sell-descendants query, then — only when
that found nothing — the conversion query, then the cancellation check,
then the fallback lookup of the previously stored lifecycle. -/
def findDirectDescendantsAndUpdateLifecycle (db : DBState) (r : Reservation) : ResolveResult :=
  if r.startDate + r.duration - 1 = r.endDate then
    ⟨setLifecycle r "unchanged", none, []⟩
  else
    let sells := sellDescendantsQuery db r
    if sells.isEmpty then
      let convs := convDescendantsQuery db r
      if convs.isEmpty then
        if r.startDate + 1 = r.endDate then
          ⟨setLifecycle r "canceled", none, [.sellDescendants, .convDescendants]⟩
        else
          match findReservation db r.reservationID with
          | none =>
            ⟨setLifecycle r "unknown", none,
              [.sellDescendants, .convDescendants, .selfLifecycle]⟩
          | some stored =>
            ⟨{ r with lifecycle := stored.lifecycle }, none,
              [.sellDescendants, .convDescendants, .selfLifecycle]⟩
      else
        ⟨setLifecycle r "converted", some (convs.map (setLifecycle · "converted")),
          [.sellDescendants, .convDescendants]⟩
    else
      ⟨setLifecycle r "sell_splitted", some (sells.map (setLifecycle · "sell_splitted")),
        [.sellDescendants]⟩

/-- `uint16` subtraction with wraparound (Go `a - b` on `uint16`),
for operands already reduced below `2^16`. -/
def u16sub (a b : Nat) : Nat := (a + 65536 - b) % 65536

/-- `uint16` addition with wraparound (Go `a + b` on `uint16`). -/
def u16add (a b : Nat) : Nat := (a + b) % 65536

/-- One derived sale: a date and a `uint16` quantity. -/
structure SellEvent where
  date : Int
  units : Nat
deriving Repr, DecidableEq

/-- The loop over consecutive generation pairs: for each adjacent pair,
one event at the older generation's end date with the `uint16`
difference of the counts. -/
def consecutiveSellEvents : List Reservation → List SellEvent
  | a :: b :: rest => ⟨a.endDate, u16sub a.count b.count⟩ :: consecutiveSellEvents (b :: rest)
  | _ => []

/-- The sell events `InsertIntoPGReservationsListingsTerms` derives, in
derivation order, from the reservations of one listing ordered ascending
by end date (`ORDER BY end_date`) and the lineage's pristine expiration:
the `switch numResults` — a single generation is taken as sold whole; for
two or more, the pairwise loop runs and, when the youngest generation's
end date plus one second is before the pristine expiration
(`EndDate.Add(time.Second).Before(...)`; the `youngestDescendntIndex > 0`
conjunct always holds in this branch), its whole remaining count is
appended as a final event. -/
def sellEventsCalcTerms (gens : List Reservation) (pristine : Int) : List SellEvent :=
  match gens with
  | [] => []
  | [r] => [⟨r.endDate, r.count⟩]
  | _ :: _ :: _ =>
    let base := consecutiveSellEvents gens
    match gens.getLast? with
    | some y => if y.endDate + 1 < pristine then base ++ [⟨y.endDate, y.count⟩] else base
    | none => base

/-- `unitsSoldAssertion`: the running `uint16` sum of every derived sold
quantity (accumulated alongside the events in the source). -/
def unitsSoldAssertionTerms (gens : List Reservation) (pristine : Int) : Nat :=
  ((sellEventsCalcTerms gens pristine).map SellEvent.units).foldl u16add 0

/-- The reservation ids whose lifecycle is upserted to `sold` inside the
`switch` (the single generation; or the youngest one when its count is
treated as sold). -/
def soldWritesTerms (gens : List Reservation) (pristine : Int) : List Nat :=
  match gens with
  | [] => []
  | [r] => [r.reservationID]
  | _ :: _ :: _ =>
    match gens.getLast? with
    | some y => if y.endDate + 1 < pristine then [y.reservationID] else []
    | none => []

/-- The sell events a listing yields in one cycle: the calculator runs
only under the `if unitsSold > 0` gate of
`InsertIntoPGReservationsListingsTerms`; otherwise the map stays empty. -/
def listingSellEvents (unitsSold : Nat) (gens : List Reservation) (pristine : Int) :
    List SellEvent :=
  if 0 < unitsSold then sellEventsCalcTerms gens pristine else []

/-- The Go map `sellEvents map[time.Time]uint16` built by the assignment
sequence: a later assignment to the same date overwrites the earlier
value. Modelled as an association list with distinct keys. -/
def mapInsert (m : List (Int × Nat)) (k : Int) (v : Nat) : List (Int × Nat) :=
  if m.any (fun p => p.1 == k) then m.map (fun p => if p.1 == k then (k, v) else p)
  else m ++ [(k, v)]

/-- The sell-event map after all assignments. -/
def sellEventsMap (evs : List SellEvent) : List (Int × Nat) :=
  evs.foldl (fun m e => mapInsert m e.date e.units) []

/-- The attribution loop of `InsertIntoPGReservationsListingsTerms`:
`if termStartDate.Before(event) && termEndDate.After(event) { unitsSold += count }`
over the entries of the sell-event map (a `uint16` accumulator). -/
def unitsSoldInWindow (m : List (Int × Nat)) (termStartDate termEndDate : Int) : Nat :=
  m.foldl (fun acc p =>
    if termStartDate < p.1 ∧ termEndDate > p.1 then u16add acc p.2 else acc) 0

/-- Two's-complement wrap of an `int64` computation. -/
def int64wrap (x : Int) : Int := (x + 2 ^ 63) % 2 ^ 64 - 2 ^ 63

/-- `time.ParseDuration` of `fmt.Sprintf("%dh", h)`, in seconds.
`ParseDuration` fails once `|h|` hours exceed `(2^63 − 1)` nanoseconds,
i.e. for `|h| > 2562047`; the source discards the error
(`duration, _ := time.ParseDuration(...)`), leaving a zero duration. -/
def goParseHoursSeconds (h : Int) : Int :=
  if h.natAbs ≤ 2562047 then h * 3600 else 0

/-- `const oneMonthDuration = time.Hour * 24 * 30`, in seconds. -/
def oneMonthSeconds : Int := 30 * 24 * 3600

/-- The calendar window of one price-schedule term (`*priceSchedule.Term`
is `t`, an `int64`): `hoursTillExpiration := t * 24 * 30`;
`termEndDate := pristine − duration`; `termStartDate := termEndDate −
oneMonthDuration`, overridden to the listing publish date when
`t == listingTotalTerms`. Returns `(termStartDate, termEndDate)`. -/
def termWindow (pristine publish : Int) (listingTotalTerms t : Int) : Int × Int :=
  let hoursTillExpiration := int64wrap (t * 24 * 30)
  let dur := goParseHoursSeconds hoursTillExpiration
  let termEndDate := pristine - dur
  let termStartDate := if t = listingTotalTerms then publish else termEndDate - oneMonthSeconds
  (termStartDate, termEndDate)

/-- One element of a listing's price schedule (`ec2.PriceSchedule`):
term index and price (price already scaled to an integer; its float
conversion is outside every claim). -/
structure PriceSchedule where
  term : Int
  price : Int
deriving Repr, DecidableEq

/-- One upserted `reservations_listings_terms` row. -/
structure TermWrite where
  listingID : Nat
  startDate : Int
  endDate : Int
  unitsSold : Nat
  upfrontPrice : Int
deriving Repr, DecidableEq

/-- The row written for each schedule term: its window and the units of
the sell-event map attributed to that window. -/
def termWriteRows (listingID : Nat) (events : List SellEvent) (pristine publish : Int)
    (priceSchedules : List PriceSchedule) : List TermWrite :=
  priceSchedules.map fun ps =>
    let w := termWindow pristine publish (priceSchedules.length : Int) ps.term
    ⟨listingID, w.1, w.2, unitsSoldInWindow (sellEventsMap events) w.1 w.2, ps.price⟩

/-- What one run of `InsertIntoPGReservationsListingsTerms` does: its
returned value, the `reservations_listings_terms` rows it upserts, and
the reservation ids whose lifecycle it upserts to `sold`. -/
structure TermsOutcome where
  result : Except String Unit
  termWrites : List TermWrite
  soldLifecycleWrites : List Nat
deriving Repr

/-- The body of `InsertIntoPGReservationsListingsTerms` (postgres.go)
after its inputs are resolved: `gens` is the result of the
`listed_on`-membership query ordered by end date, `pristine` the resolved
original expiration, `publish` the listing publish date. When units were
sold: no member reservations is an error; a single member that is not the
listed reservation is an error; an assertion mismatch between the derived
sum and the reported `unitsSold` returns `nil` with the term-window
writes skipped; otherwise every schedule term's window row is upserted. -/
def listingsTermsOutcome (listingID listedRIID : Nat) (unitsSold : Nat)
    (gens : List Reservation) (pristine publish : Int)
    (priceSchedules : List PriceSchedule) : TermsOutcome :=
  if 0 < unitsSold then
    match gens with
    | [] => ⟨.error "Did not find any reservations that belongs to this listing", [], []⟩
    | [r] =>
      if r.reservationID ≠ listedRIID then
        ⟨.error "Failed assertion on single sold listedRIID", [], []⟩
      else if unitsSoldAssertionTerms gens pristine ≠ unitsSold then
        ⟨.ok (), [], soldWritesTerms gens pristine⟩
      else
        ⟨.ok (), termWriteRows listingID (sellEventsCalcTerms gens pristine) pristine publish
          priceSchedules, soldWritesTerms gens pristine⟩
    | _ :: _ :: _ =>
      if unitsSoldAssertionTerms gens pristine ≠ unitsSold then
        ⟨.ok (), [], soldWritesTerms gens pristine⟩
      else
        ⟨.ok (), termWriteRows listingID (sellEventsCalcTerms gens pristine) pristine publish
          priceSchedules, soldWritesTerms gens pristine⟩
  else
    ⟨.ok (), termWriteRows listingID [] pristine publish priceSchedules, []⟩

/-- The parent rows of a reservation id: `reservations` joined with
`reservations_relations` on `reservations.reservation_id = relation.parent_id`
where `relation.reservation_id` is the given id. -/
def joinParents (db : DBState) (id : Nat) : List Reservation :=
  db.reservations.filter fun q => db.relations.any fun e => e.1 == q.reservationID && e.2 == id

/-- The child rows of a reservation id: the join in the other direction
(`relation.parent_id` is the given id). -/
def joinChildren (db : DBState) (id : Nat) : List Reservation :=
  db.reservations.filter fun q => db.relations.any fun e => e.1 == id && e.2 == q.reservationID

/-- `ORDER BY f LIMIT 1` over query rows: the first row of minimal `f`. -/
def firstMinBy (f : Reservation → Int) : List Reservation → Option Reservation
  | [] => none
  | a :: t =>
    match firstMinBy f t with
    | none => some a
    | some b => if f a ≤ f b then some a else some b

/-- The one query of each upward-walk iteration:
`... ORDER BY start_date LIMIT 1` over the parents. -/
def minParentByStart (db : DBState) (id : Nat) : Option Reservation :=
  firstMinBy (fun q => q.startDate) (joinParents db id)

/-- The one query of each downward-walk iteration:
`... ORDER BY original_end_date ASC LIMIT 1` over the children. -/
def minChildByOriginalEnd (db : DBState) (id : Nat) : Option Reservation :=
  firstMinBy (fun q => q.originalEndDate) (joinChildren db id)

/-- The `for { ... }` upward walk of `getOriginalReservationExpirationDate`:
follow the minimal-start parent until a query returns no rows. The source
loop has no iteration bound; the `fuel` argument only truncates the
model, `none` meaning the walk is still running after `fuel` iterations. -/
def walkUp (db : DBState) : Nat → Reservation → Option Reservation
  | 0, _ => none
  | n + 1, cur =>
    match minParentByStart db cur.reservationID with
    | none => some cur
    | some p => walkUp db n p

/-- The downward walk: follow the minimal-`original_end_date` child until
a query returns no rows; unbounded in the source exactly like `walkUp`. -/
def walkDown (db : DBState) : Nat → Reservation → Option Reservation
  | 0, _ => none
  | n + 1, cur =>
    match minChildByOriginalEnd db cur.reservationID with
    | none => some cur
    | some c => walkDown db n c

/-- `getOriginalReservationExpirationDate` (the revision writing
`original_end_date`), over a snapshot reservation `r`: early exits for a
non-retired or full-duration reservation and for an id the store does not
hold (each returns the reported end date); otherwise the stored row is
loaded over `r` (`DB.Model(r).WherePK().Select()`), the walks run from
it, and the result is the oldest ancestor's `start + duration − 1s`
unless the youngest descendant's recorded `original_end_date` is later.
`duration` is parsed from the snapshot before the row is overwritten.
`oldestParent == r` (pointer comparison) holds exactly when the first
parent query returned no rows. `none` models the unbounded walks still
running after `fuel` iterations. -/
def getOriginalReservationExpirationDate (db : DBState) (fuel : Nat) (r : Reservation) :
    Option Int :=
  let duration := r.duration
  if r.state ≠ "retired" ∨ r.startDate + duration - 1 = r.endDate then some r.endDate
  else
    match findReservation db r.reservationID with
    | none => some r.endDate
    | some stored =>
      match walkUp db fuel stored with
      | none => none
      | some oldestParent =>
        if minParentByStart db stored.reservationID = none then
          some (stored.startDate + duration - 1)
        else
          match walkDown db fuel stored with
          | none => none
          | some youngestDescendnt =>
            let oldestParentOriginalEndDate := oldestParent.startDate + duration - 1
            if youngestDescendnt.originalEndDate > oldestParentOriginalEndDate then
              some youngestDescendnt.originalEndDate
            else
              some oldestParentOriginalEndDate

/-- `funk.Uniq`: keep the first occurrence of each element, in order. -/
def uniqFirstAux {α : Type} [DecidableEq α] (seen : List α) : List α → List α
  | [] => []
  | a :: t => if a ∈ seen then uniqFirstAux seen t else a :: uniqFirstAux (a :: seen) t

/-- `funk.Uniq` over a list. -/
def uniqFirst {α : Type} [DecidableEq α] (l : List α) : List α := uniqFirstAux [] l

/-- The observable acts of a persistence operation, in order: store
queries and row upserts/inserts. -/
inductive PGEffect where
  | upsertInstances
  | upsertInstancesUptime
  | insertSpotPrice
  | storeQuery (q : QueryKind)
  | upsertReservation (r : Reservation)
  | upsertDescendants (ds : List Reservation)
  | upsertRelations (edges : List (Nat × Nat))
  | upsertListing (id : Nat)
  | upsertTermRow (w : TermWrite)
  | upsertSoldLifecycle (id : Nat)
deriving Repr, DecidableEq

/-- `InsertIntoPGInstances`: exits silently when the database was not
initialized (`DB == nil`); otherwise one transaction upserting the
instance row and its uptime row. -/
def InsertIntoPGInstances (db : Option DBState) : Except String Unit × List PGEffect :=
  match db with
  | none => (.ok (), [])
  | some _ => (.ok (), [.upsertInstances, .upsertInstancesUptime])

/-- `InsertIntoPGSpotPrices`: exits silently when `DB == nil`; otherwise
one insert into `spot_prices`. -/
def InsertIntoPGSpotPrices (db : Option DBState) : Except String Unit × List PGEffect :=
  match db with
  | none => (.ok (), [])
  | some _ => (.ok (), [.insertSpotPrice])

/-- `InsertIntoPGReservationsListings`: exits silently when `DB == nil`;
otherwise one upsert of the listing row. -/
def InsertIntoPGReservationsListings (db : Option DBState) (listingID : Nat) :
    Except String Unit × List PGEffect :=
  match db with
  | none => (.ok (), [])
  | some _ => (.ok (), [.upsertListing listingID])

/-- `InsertIntoPGReservations`: exits silently when `DB == nil`;
otherwise runs the resolver, upserts the reservation, and — only when
direct descendants were found — upserts them, queries the rows where they
are parents (`far descendants`), and upserts the de-duplicated relation
edges from this reservation to each. -/
def InsertIntoPGReservations (db : Option DBState) (r : Reservation) :
    Except String Unit × List PGEffect :=
  match db with
  | none => (.ok (), [])
  | some d =>
    let res := findDirectDescendantsAndUpdateLifecycle d r
    let qs := res.queries.map PGEffect.storeQuery
    match res.descendants with
    | none => (.ok (), qs ++ [.upsertReservation res.reservation])
    | some ds =>
      let dsIDs := ds.map Reservation.reservationID
      let far := (d.relations.filter fun e => dsIDs.contains e.1).map Prod.snd
      let rels := uniqFirst ((dsIDs ++ far).map fun c => (r.reservationID, c))
      (.ok (), qs ++ [.upsertReservation res.reservation, .upsertDescendants ds,
        .storeQuery .farDescendants, .upsertRelations rels])

/-- `InsertIntoPGReservationsListingsTerms`: exits silently when
`DB == nil`; otherwise behaves as `listingsTermsOutcome`, its writes
reified as effects (sold-lifecycle upserts happen inside the `switch`,
before the term-row transaction). -/
def InsertIntoPGReservationsListingsTerms (db : Option DBState) (listingID listedRIID : Nat)
    (unitsSold : Nat) (gens : List Reservation) (pristine publish : Int)
    (priceSchedules : List PriceSchedule) : Except String Unit × List PGEffect :=
  match db with
  | none => (.ok (), [])
  | some _ =>
    let o := listingsTermsOutcome listingID listedRIID unitsSold gens pristine publish
      priceSchedules
    (o.result, o.soldLifecycleWrites.map PGEffect.upsertSoldLifecycle ++
      o.termWrites.map PGEffect.upsertTermRow)

/-- The window attribution the spec sentence states (transcribed from the
spec's words, not from the source, for comparison with
`unitsSoldInWindow`): the sum of the quantities whose date falls within
the half-open interval `[window_start, window_end)`. -/
def unitsSoldInWindowSpec (m : List (Int × Nat)) (termStartDate termEndDate : Int) : Nat :=
  ((m.filter fun p => decide (termStartDate ≤ p.1 ∧ p.1 < termEndDate)).map Prod.snd).sum

/-- A neutral base row for the concrete instances below. -/
def baseRes : Reservation :=
  { reservationID := 0, startDate := 0, endDate := 0, duration := 0, count := 0,
    upfrontPrice := 0, offerClass := "standard", region := "us-east-1", family := "m5",
    offerType := "All Upfront", product := "Linux/UNIX", tenancy := "default",
    lifecycle := [], state := "active", originalEndDate := 0, listedOn := [] }

/-- A reservation truncated by a sale: full duration 2000s but reported
end 999. -/
def rSellParent : Reservation :=
  { baseRes with
    reservationID := 1
    endDate := 999
    duration := 2000
    upfrontPrice := 500
    state := "retired" }

/-- Its carved-off unit: starts exactly one second after the parent's
end, same upfront price and family attributes. -/
def rSellChild : Reservation :=
  { baseRes with
    reservationID := 2
    startDate := 1000
    endDate := 1999
    duration := 2000
    upfrontPrice := 500 }

/-- A store holding only the carved-off descendant. -/
def dbSell : DBState := ⟨[rSellChild], []⟩

/-- A reservation still running its full pristine duration
(`0 + 100 − 1 = 99`). -/
def rUnchanged : Reservation :=
  { baseRes with
    reservationID := 3
    duration := 100
    endDate := 99 }

/-- Older generation of a listing's lineage: 10 units until end date 100. -/
def genOld : Reservation :=
  { baseRes with
    reservationID := 4
    endDate := 100
    count := 10 }

/-- Younger generation: 7 units remaining, end date 200. -/
def genYoung : Reservation :=
  { baseRes with
    reservationID := 5
    endDate := 200
    count := 7 }

/-- Root of a three-generation lineage. -/
def rootRes : Reservation :=
  { baseRes with
    reservationID := 6
    startDate := 1000
    state := "retired" }

/-- Middle generation: retired and shorter than its 5000s duration. -/
def midRes : Reservation :=
  { baseRes with
    reservationID := 7
    startDate := 3000
    endDate := 4000
    duration := 5000
    state := "retired" }

/-- Youngest generation, carrying a recorded `original_end_date` of 7000
(later than the root's `start + duration − 1s = 5999`). -/
def childRes : Reservation :=
  { baseRes with
    reservationID := 8
    originalEndDate := 7000 }

/-- The lineage store: root → middle → youngest. -/
def dbLineage : DBState := ⟨[rootRes, midRes, childRes], [(6, 7), (7, 8)]⟩

/-- One endpoint of a corrupted (cyclic) relation graph. -/
def cycA : Reservation :=
  { baseRes with
    reservationID := 10
    endDate := 50
    duration := 100
    state := "retired" }

/-- The other endpoint of the cycle. -/
def cycB : Reservation :=
  { baseRes with
    reservationID := 11
    startDate := 5
    endDate := 60
    duration := 100
    state := "retired" }

/-- A corrupted store: each of the two reservations is recorded as the
other's parent. -/
def dbCyclic : DBState := ⟨[cycA, cycB], [(10, 11), (11, 10)]⟩

end AwsAudit

namespace AwsAudit

/-- Any status other than `canceled` / `unchanged` / `unknown` takes the
default branch: filter, then append the new status. -/
theorem updateLifecycle_default (l : List String) (tag : String)
    (h1 : tag ≠ "canceled") (h2 : tag ≠ "unchanged") (h3 : tag ≠ "unknown") :
    updateReservationLifecycleStatus l tag =
      (l.filter fun s =>
        !(s == "unchanged" || s == "unknown" || s == "canceled" || s == tag)) ++ [tag] := by
  simp [updateReservationLifecycleStatus, h1, h2, h3]

/-- A placeholder tag is never present after an update with a
non-placeholder status. -/
theorem not_mem_update_placeholder (l : List String) (tag s : String)
    (h1 : tag ≠ "canceled") (h2 : tag ≠ "unchanged") (h3 : tag ≠ "unknown")
    (hs : s = "unchanged" ∨ s = "unknown") (hstag : s ≠ tag) :
    s ∉ updateReservationLifecycleStatus l tag := by
  rw [updateLifecycle_default l tag h1 h2 h3]
  intro hmem
  rcases List.mem_append.1 hmem with hf | hl
  · have hp := (List.mem_filter.1 hf).2
    rcases hs with h | h <;> subst h <;> simp at hp
  · exact hstag (List.mem_singleton.1 hl)

/-- A tag that is neither a placeholder nor `canceled` survives the
default branch of an update with a different status. -/
theorem mem_update_of_definitive (l : List String) (t tag : String)
    (h1 : tag ≠ "canceled") (h2 : tag ≠ "unchanged") (h3 : tag ≠ "unknown")
    (ht1 : t ≠ "unchanged") (ht2 : t ≠ "unknown") (ht3 : t ≠ "canceled")
    (hne : t ≠ tag) (hmem : t ∈ l) :
    t ∈ updateReservationLifecycleStatus l tag := by
  rw [updateLifecycle_default l tag h1 h2 h3]
  refine List.mem_append.2 (Or.inl (List.mem_filter.2 ⟨hmem, ?_⟩))
  simp [ht1, ht2, ht3, hne]

/-- C5, counterexample: a reservation whose tag set is exactly
`{canceled}` is updated with the definitive tag `converted`; `canceled`
is filtered out of the result, so it does not persist as the claim
states. -/
theorem C5_counterexample :
    "canceled" ∈ (["canceled"] : List String) ∧
      "canceled" ∉ updateReservationLifecycleStatus ["canceled"] "converted" := by
  decide

/-- C5 (amended): across lifecycle-tag updates, the placeholders
`unchanged` and `unknown` are cleared once a definitive tag
(`canceled`, `converted`, `sell_splitted` or `sold`) is learned; each of
`converted`, `sell_splitted` and `sold`, once present, remains present
after any later update with a different definitive tag other than
`canceled`; updating with `canceled` resets the set to exactly
`{canceled}` (so `canceled` itself, and any other tag, does not survive
a crossing update). -/
theorem C5_lifecycle_persistence (l : List String) (t tag : String)
    (htag : tag = "canceled" ∨ tag = "converted" ∨ tag = "sell_splitted" ∨ tag = "sold")
    (ht : t = "converted" ∨ t = "sell_splitted" ∨ t = "sold") :
    "unchanged" ∉ updateReservationLifecycleStatus l tag ∧
    "unknown" ∉ updateReservationLifecycleStatus l tag ∧
    (t ∈ l → t ≠ tag → tag ≠ "canceled" → t ∈ updateReservationLifecycleStatus l tag) ∧
    updateReservationLifecycleStatus l "canceled" = ["canceled"] := by
  have hcanc : updateReservationLifecycleStatus l "canceled" = ["canceled"] := by
    simp [updateReservationLifecycleStatus]
  have ht1 : t ≠ "unchanged" := by rcases ht with h | h | h <;> subst h <;> decide
  have ht2 : t ≠ "unknown" := by rcases ht with h | h | h <;> subst h <;> decide
  have ht3 : t ≠ "canceled" := by rcases ht with h | h | h <;> subst h <;> decide
  by_cases hc : tag = "canceled"
  · subst hc
    exact ⟨by simp [hcanc], by simp [hcanc], fun _ _ h => absurd rfl h, hcanc⟩
  · have h2 : tag ≠ "unchanged" := by
      rcases htag with h | h | h | h <;> (try exact absurd h hc) <;> subst h <;> decide
    have h3 : tag ≠ "unknown" := by
      rcases htag with h | h | h | h <;> (try exact absurd h hc) <;> subst h <;> decide
    exact ⟨not_mem_update_placeholder l tag "unchanged" hc h2 h3 (Or.inl rfl)
             (fun he => h2 he.symm),
           not_mem_update_placeholder l tag "unknown" hc h2 h3 (Or.inr rfl)
             (fun he => h3 he.symm),
           fun hmem hne _ => mem_update_of_definitive l t tag hc h2 h3 ht1 ht2 ht3 hne hmem,
           hcanc⟩

/-- C5 witness: a reservation tagged `sold` is later updated with
`converted`; `sold` persists and the placeholders are absent. -/
theorem C5_witness :
    "sold" ∈ updateReservationLifecycleStatus ["sold"] "converted" ∧
      "unchanged" ∉ updateReservationLifecycleStatus ["sold"] "converted" := by
  have h := C5_lifecycle_persistence ["sold"] "sold" "converted"
    (Or.inr (Or.inl rfl)) (Or.inr (Or.inr rfl))
  exact ⟨h.2.2.1 (List.mem_singleton.2 rfl) (by decide) (by decide), h.1⟩

end AwsAudit

namespace AwsAudit

/-- The new status itself is always a member after a default-branch
update. -/
theorem self_mem_update (l : List String) (tag : String)
    (h1 : tag ≠ "canceled") (h2 : tag ≠ "unchanged") (h3 : tag ≠ "unknown") :
    tag ∈ updateReservationLifecycleStatus l tag := by
  rw [updateLifecycle_default l tag h1 h2 h3]
  exact List.mem_append.2 (Or.inr (List.mem_singleton.2 rfl))

/-- C4: a reservation with `start + duration − 1s = end` is tagged
exactly `{unchanged}`, gets no direct descendants, issues no descendant
queries, and its `InsertIntoPGReservations` cycle performs only the
reservation upsert — no relation edges. -/
theorem C4_unchanged_terminal (db : DBState) (r : Reservation)
    (h : r.startDate + r.duration - 1 = r.endDate) :
    (findDirectDescendantsAndUpdateLifecycle db r).reservation.lifecycle = ["unchanged"] ∧
    (findDirectDescendantsAndUpdateLifecycle db r).descendants = none ∧
    (findDirectDescendantsAndUpdateLifecycle db r).queries = [] ∧
    (InsertIntoPGReservations (some db) r).2 =
      [PGEffect.upsertReservation (setLifecycle r "unchanged")] := by
  have hres : findDirectDescendantsAndUpdateLifecycle db r =
      ⟨setLifecycle r "unchanged", none, []⟩ := by
    simp [findDirectDescendantsAndUpdateLifecycle, h]
  refine ⟨?_, ?_, ?_, ?_⟩
  · rw [hres]
    simp [setLifecycle, updateReservationLifecycleStatus]
  · rw [hres]
  · rw [hres]
  · simp [InsertIntoPGReservations, hres]

/-- C4 witness: the fixture reservation running its full duration, over
the sample store. -/
theorem C4_witness :
    (findDirectDescendantsAndUpdateLifecycle dbSell rUnchanged).reservation.lifecycle =
        ["unchanged"] ∧
      (findDirectDescendantsAndUpdateLifecycle dbSell rUnchanged).descendants = none ∧
      (findDirectDescendantsAndUpdateLifecycle dbSell rUnchanged).queries = [] := by
  have h := C4_unchanged_terminal dbSell rUnchanged (by decide)
  exact ⟨h.1, h.2.1, h.2.2.1⟩

/-- C3: for a reservation past the unchanged check, the sell-descendants
query selects exactly the family members with `start = end + 1s` and the
same upfront price; a non-empty result tags the reservation and every
match `sell_splitted` and the conversion query is never issued; the
conversion query is issued only when the sell query returned no rows. -/
theorem C3_sell_split_priority (db : DBState) (r : Reservation)
    (h : r.startDate + r.duration - 1 ≠ r.endDate) :
    (∀ q, q ∈ sellDescendantsQuery db r ↔
        q ∈ db.reservations ∧ sameFamilyRow r q = true ∧
          q.startDate = r.endDate + 1 ∧ q.upfrontPrice = r.upfrontPrice) ∧
    (sellDescendantsQuery db r ≠ [] →
        "sell_splitted" ∈ (findDirectDescendantsAndUpdateLifecycle db r).reservation.lifecycle ∧
        (findDirectDescendantsAndUpdateLifecycle db r).descendants =
          some ((sellDescendantsQuery db r).map (setLifecycle · "sell_splitted")) ∧
        (∀ d ∈ (sellDescendantsQuery db r).map (setLifecycle · "sell_splitted"),
          "sell_splitted" ∈ d.lifecycle) ∧
        QueryKind.convDescendants ∉ (findDirectDescendantsAndUpdateLifecycle db r).queries) ∧
    (QueryKind.convDescendants ∈ (findDirectDescendantsAndUpdateLifecycle db r).queries →
        sellDescendantsQuery db r = []) := by
  refine ⟨?_, ?_, ?_⟩
  · intro q
    simp only [sellDescendantsQuery, List.mem_filter, Bool.and_eq_true, beq_iff_eq]
    tauto
  · intro hne
    have hfd : findDirectDescendantsAndUpdateLifecycle db r =
        ⟨setLifecycle r "sell_splitted",
          some ((sellDescendantsQuery db r).map (setLifecycle · "sell_splitted")),
          [.sellDescendants]⟩ := by
      unfold findDirectDescendantsAndUpdateLifecycle
      rw [if_neg h]
      cases hs : sellDescendantsQuery db r with
      | nil => exact absurd hs hne
      | cons a t => simp [hs]
    refine ⟨?_, ?_, ?_, ?_⟩
    · rw [hfd]
      exact self_mem_update r.lifecycle "sell_splitted" (by decide) (by decide) (by decide)
    · rw [hfd]
    · intro d hd
      rcases List.mem_map.1 hd with ⟨q, _, rfl⟩
      exact self_mem_update q.lifecycle "sell_splitted" (by decide) (by decide) (by decide)
    · rw [hfd]
      intro hmem
      exact absurd (List.mem_singleton.1 hmem) (by decide)
  · intro hconv
    by_cases hs : sellDescendantsQuery db r = []
    · exact hs
    · exfalso
      have hfd : (findDirectDescendantsAndUpdateLifecycle db r).queries =
          [QueryKind.sellDescendants] := by
        unfold findDirectDescendantsAndUpdateLifecycle
        rw [if_neg h]
        cases hsq : sellDescendantsQuery db r with
        | nil => exact absurd hsq hs
        | cons a t => simp [hsq]
      rw [hfd] at hconv
      exact absurd (List.mem_singleton.1 hconv) (by decide)

/-- C3 witness: the fixture parent whose end date is one second before
the stored child's start, with matching upfront price. -/
theorem C3_witness :
    (findDirectDescendantsAndUpdateLifecycle dbSell rSellParent).descendants =
        some [setLifecycle rSellChild "sell_splitted"] ∧
      QueryKind.convDescendants ∉
        (findDirectDescendantsAndUpdateLifecycle dbSell rSellParent).queries := by
  have h := (C3_sell_split_priority dbSell rSellParent (by decide)).2.1 (by decide)
  exact ⟨h.2.1, h.2.2.2⟩

end AwsAudit

namespace AwsAudit

/-- Index `i` of the pairwise loop's events: the event for the adjacent
pair at positions `i` and `i + 1`. -/
theorem consecutiveSellEvents_get (l : List Reservation) :
    ∀ (i : Nat) (a b : Reservation), l.get? i = some a → l.get? (i + 1) = some b →
      (consecutiveSellEvents l).get? i = some ⟨a.endDate, u16sub a.count b.count⟩ := by
  induction l with
  | nil => intro i a b ha _; simp at ha
  | cons x t ih =>
    intro i a b ha hb
    cases t with
    | nil =>
      cases i with
      | zero => simp at hb
      | succ j => simp at ha
    | cons y s =>
      cases i with
      | zero =>
        simp only [List.get?] at ha hb
        cases ha
        cases hb
        rfl
      | succ i =>
        have hrec := ih i a b (by simpa using ha) (by simpa using hb)
        simpa [consecutiveSellEvents] using hrec

/-- The pairwise loop emits one event per adjacent pair. -/
theorem consecutiveSellEvents_length (l : List Reservation) :
    (consecutiveSellEvents l).length = l.length - 1 := by
  induction l with
  | nil => rfl
  | cons x t ih =>
    cases t with
    | nil => rfl
    | cons y s =>
      simp only [consecutiveSellEvents, List.length_cons] at ih ⊢
      omega

/-- `uint16` subtraction agrees with truncated subtraction when the
counts decrease down the chain and fit in 16 bits. -/
theorem u16sub_eq_sub (a b : Nat) (hb : b ≤ a) (ha : a < 65536) :
    u16sub a b = a - b := by
  unfold u16sub
  have h1 : a + 65536 - b = (a - b) + 65536 := by omega
  rw [h1, Nat.add_mod_right]
  exact Nat.mod_eq_of_lt (by omega)

end AwsAudit

namespace AwsAudit

/-- C1: for a listing with reported units sold, over a lineage of `n ≥ 2`
generations ordered ascending by end date with 16-bit counts decreasing
down the chain, the calculator derives the event
`(end date of generation i, count i − count (i+1))` at position `i` for
every `i < n − 1`, and — when the youngest generation's end date plus one
second is earlier than the pristine expiration — additionally the event
`(youngest end date, youngest count)` at position `n − 1`. -/
theorem C1_sell_event_derivation (unitsSold : Nat) (gens : List Reservation) (pristine : Int)
    (hpos : 0 < unitsSold)
    (hn : 2 ≤ gens.length)
    (_hsorted : gens.Chain' fun a b => a.endDate ≤ b.endDate)
    (hbound : ∀ g ∈ gens, g.count < 65536)
    (hmono : ∀ (i : Nat) (a b : Reservation), gens.get? i = some a →
      gens.get? (i + 1) = some b → b.count ≤ a.count) :
    (∀ (i : Nat) (a b : Reservation), gens.get? i = some a → gens.get? (i + 1) = some b →
        (listingSellEvents unitsSold gens pristine).get? i =
          some ⟨a.endDate, a.count - b.count⟩) ∧
    (∀ y, gens.getLast? = some y → y.endDate + 1 < pristine →
        (listingSellEvents unitsSold gens pristine).get? (gens.length - 1) =
          some ⟨y.endDate, y.count⟩) := by
  have hle : listingSellEvents unitsSold gens pristine = sellEventsCalcTerms gens pristine := by
    simp [listingSellEvents, hpos]
  obtain ⟨g0, g1, rest, rfl⟩ : ∃ g0 g1 rest, gens = g0 :: g1 :: rest := by
    cases gens with
    | nil => simp at hn
    | cons g0 t =>
      cases t with
      | nil => simp at hn
      | cons g1 rest => exact ⟨g0, g1, rest, rfl⟩
  obtain ⟨y0, hy0⟩ : ∃ y0, (g0 :: g1 :: rest).getLast? = some y0 := by
    cases hgl : (g0 :: g1 :: rest).getLast? with
    | none => simp [List.getLast?_eq_none_iff] at hgl
    | some y => exact ⟨y, rfl⟩
  have hbase : (consecutiveSellEvents (g0 :: g1 :: rest)).length = rest.length + 1 := by
    rw [consecutiveSellEvents_length]
    simp
  have hcalc : sellEventsCalcTerms (g0 :: g1 :: rest) pristine =
      if y0.endDate + 1 < pristine then
        consecutiveSellEvents (g0 :: g1 :: rest) ++ [⟨y0.endDate, y0.count⟩]
      else consecutiveSellEvents (g0 :: g1 :: rest) := by
    simp only [sellEventsCalcTerms, hy0]
  have hpair : ∀ (i : Nat) (a b : Reservation), (g0 :: g1 :: rest).get? i = some a →
      (g0 :: g1 :: rest).get? (i + 1) = some b →
      (sellEventsCalcTerms (g0 :: g1 :: rest) pristine).get? i =
        some ⟨a.endDate, a.count - b.count⟩ := by
    intro i a b ha hb
    obtain ⟨hlt, -⟩ := List.get?_eq_some.1 hb
    have hi : i < (consecutiveSellEvents (g0 :: g1 :: rest)).length := by
      simp only [List.length_cons] at hlt
      omega
    have hcons := consecutiveSellEvents_get (g0 :: g1 :: rest) i a b ha hb
    have hsub : u16sub a.count b.count = a.count - b.count :=
      u16sub_eq_sub a.count b.count (hmono i a b ha hb) (hbound a (List.get?_mem ha))
    rw [hcalc]
    split
    · rw [List.get?_append hi, hcons, hsub]
    · rw [hcons, hsub]
  constructor
  · intro i a b ha hb
    rw [hle]
    exact hpair i a b ha hb
  · intro y hy hylt
    rw [hy0] at hy
    cases hy
    rw [hle, hcalc, if_pos hylt]
    have hidx : (g0 :: g1 :: rest).length - 1 = (consecutiveSellEvents (g0 :: g1 :: rest)).length := by
      simp only [List.length_cons]
      omega
    rw [hidx, List.get?_append_right (Nat.le_refl _), Nat.sub_self]
    rfl

/-- C1 witness: two generations with counts 10 and 7, ends 100 and 200,
pristine expiration 1000: the derived events are `(100, 3)` then
`(200, 7)`. -/
theorem C1_witness :
    (listingSellEvents 10 [genOld, genYoung] 1000).get? 0 =
        some ⟨genOld.endDate, genOld.count - genYoung.count⟩ ∧
      (listingSellEvents 10 [genOld, genYoung] 1000).get? 1 =
        some ⟨genYoung.endDate, genYoung.count⟩ := by
  have h := C1_sell_event_derivation 10 [genOld, genYoung] 1000 (by decide) (by decide)
    (List.chain'_cons.2 ⟨by decide, List.chain'_singleton _⟩) (by decide) ?hmono
  case hmono =>
    intro i a b ha hb
    cases i with
    | zero =>
      simp only [List.get?] at ha hb
      cases ha
      cases hb
      decide
    | succ j =>
      cases j with
      | zero => simp at hb
      | succ k => simp at hb
  exact ⟨h.1 0 genOld genYoung rfl rfl, h.2 genYoung rfl (by decide)⟩

end AwsAudit

namespace AwsAudit

/-- C7: when units were sold and the derived `uint16` sum of the
per-generation sold quantities disagrees with the reported total, the
calculator returns `nil` (success) and skips the whole term-window
write for that cycle (a single-generation lineage must be the listed
reservation itself, or the run errors before the validation). -/
theorem C7_mismatch_skips_write (listingID listedRIID : Nat) (unitsSold : Nat)
    (gens : List Reservation) (pristine publish : Int) (priceSchedules : List PriceSchedule)
    (hpos : 0 < unitsSold)
    (hne : gens ≠ [])
    (hsingle : ∀ g, gens = [g] → g.reservationID = listedRIID)
    (hmismatch : unitsSoldAssertionTerms gens pristine ≠ unitsSold) :
    (listingsTermsOutcome listingID listedRIID unitsSold gens pristine publish
        priceSchedules).result = Except.ok () ∧
    (listingsTermsOutcome listingID listedRIID unitsSold gens pristine publish
        priceSchedules).termWrites = [] := by
  cases gens with
  | nil => exact absurd rfl hne
  | cons g t =>
    cases t with
    | nil =>
      have hid : g.reservationID = listedRIID := hsingle g rfl
      simp [listingsTermsOutcome, hpos, hid, hmismatch]
    | cons g1 t1 =>
      simp [listingsTermsOutcome, hpos, hmismatch]

/-- C7 witness: the two fixture generations derive 3 + 7 = 10 sold
units while the listing reports 4; the run succeeds and writes no term
rows. -/
theorem C7_witness :
    (listingsTermsOutcome 100 4 4 [genOld, genYoung] 1000 0 []).result = Except.ok () ∧
      (listingsTermsOutcome 100 4 4 [genOld, genYoung] 1000 0 []).termWrites = [] := by
  refine C7_mismatch_skips_write 100 4 4 [genOld, genYoung] 1000 0 [] (by decide) (by decide)
    ?_ (by decide)
  intro g hg
  simp at hg

end AwsAudit

namespace AwsAudit

/-- `int64` wrap is the identity on representable values. -/
theorem int64wrap_eq_self (x : Int) (hlo : -(2 ^ 63) ≤ x) (hhi : x < 2 ^ 63) :
    int64wrap x = x := by
  unfold int64wrap
  have h0 : (0 : Int) ≤ x + 2 ^ 63 := by omega
  have h1 : x + 2 ^ 63 < 2 ^ 64 := by omega
  rw [Int.emod_eq_of_lt h0 h1]
  omega

/-- C8 (amended): for a term index whose `t × 720` hours are
representable as a 64-bit nanosecond duration (`|t| ≤ 3558` largely
covers every real schedule), the window end is the pristine expiration
minus `t` thirty-day months, and the window start is one thirty-day
month earlier — except the maximal-index term, whose start is the
listing publish date. Beyond that bound the silently-dropped
`time.ParseDuration` error leaves a zero duration. -/
theorem C8_term_window (pristine publish listingTotalTerms t : Int)
    (hbound : t.natAbs ≤ 3558) :
    (termWindow pristine publish listingTotalTerms t).2 =
        pristine - t * oneMonthSeconds ∧
      (t = listingTotalTerms → (termWindow pristine publish listingTotalTerms t).1 = publish) ∧
      (t ≠ listingTotalTerms →
        (termWindow pristine publish listingTotalTerms t).1 =
          (termWindow pristine publish listingTotalTerms t).2 - oneMonthSeconds) := by
  have hwrap : int64wrap (t * 24 * 30) = t * 24 * 30 := by
    apply int64wrap_eq_self <;> omega
  have habs : (t * 24 * 30).natAbs ≤ 2562047 := by
    have : (t * 24 * 30).natAbs = t.natAbs * 720 := by
      rw [Int.mul_assoc]
      rw [Int.natAbs_mul]
      rfl
    omega
  have hdur : goParseHoursSeconds (int64wrap (t * 24 * 30)) = t * oneMonthSeconds := by
    rw [hwrap]
    unfold goParseHoursSeconds
    rw [if_pos habs]
    unfold oneMonthSeconds
    ring
  refine ⟨?_, ?_, ?_⟩
  · simp only [termWindow, hdur]
  · intro heq
    simp only [termWindow, hdur, if_pos heq]
  · intro hne
    simp only [termWindow, hdur, if_neg hne]

/-- C8 counterexample: at term index 3559 the hour count 2562480
overflows `time.ParseDuration`; the discarded error leaves a zero
duration, so the window end equals the pristine expiration instead of
`pristine − 3559 × 30d`. -/
theorem C8_counterexample :
    (termWindow 0 5 2 3559).2 = 0 ∧ (termWindow 0 5 2 3559).2 ≠ 0 - 3559 * oneMonthSeconds := by
  constructor
  · norm_num [termWindow, int64wrap, goParseHoursSeconds]
  · norm_num [termWindow, int64wrap, goParseHoursSeconds, oneMonthSeconds]

/-- C8 witness: two monthly terms ending at pristine expiration
1000000: term 2 (the maximal index) starts at the publish date and ends
two months before expiration. -/
theorem C8_witness :
    (termWindow 1000000 7 2 2).2 = 1000000 - 2 * oneMonthSeconds ∧
      (termWindow 1000000 7 2 2).1 = 7 := by
  have h := C8_term_window 1000000 7 2 2 (by decide)
  exact ⟨h.1, h.2.1 rfl⟩

end AwsAudit

namespace AwsAudit

/-- The attribution fold with any in-range accumulator is the filtered
sum modulo `2^16`. -/
theorem unitsSoldInWindow_foldl (ts te : Int) :
    ∀ (m : List (Int × Nat)) (acc : Nat), acc < 65536 →
      m.foldl (fun acc p =>
          if ts < p.1 ∧ te > p.1 then u16add acc p.2 else acc) acc =
        (acc + ((m.filter fun p => decide (ts < p.1 ∧ te > p.1)).map Prod.snd).sum) % 65536 := by
  intro m
  induction m with
  | nil =>
    intro acc hacc
    simp [Nat.mod_eq_of_lt hacc]
  | cons p rest ih =>
    intro acc hacc
    by_cases hp : ts < p.1 ∧ te > p.1
    · simp only [List.foldl_cons, List.filter_cons, decide_eq_true hp, if_pos hp, if_true,
        List.map_cons, List.sum_cons]
      rw [ih (u16add acc p.2) (Nat.mod_lt _ (by decide))]
      unfold u16add
      rw [Nat.mod_add_mod, Nat.add_assoc]
    · simp only [List.foldl_cons, List.filter_cons, if_neg hp]
      rw [decide_eq_false hp]
      simp only [Bool.false_eq_true, if_neg (fun h => (Bool.false_ne_true h).elim)]
      exact ih acc hacc

/-- C9 (amended): the units attributed to a window are the sum (as a
`uint16` accumulation) of the map entries whose date lies strictly
between the window start and the window end: the loop's conditions
`termStartDate.Before(event) && termEndDate.After(event)` are both
strict, so an event dated exactly at the window start — or exactly at
the window end — contributes nothing. -/
theorem C9_window_attribution (m : List (Int × Nat)) (ts te : Int) :
    unitsSoldInWindow m ts te =
        ((m.filter fun p => decide (ts < p.1 ∧ p.1 < te)).map Prod.snd).sum % 65536 ∧
      (∀ v : Nat, unitsSoldInWindow ((ts, v) :: m) ts te = unitsSoldInWindow m ts te) ∧
      (∀ v : Nat, unitsSoldInWindow ((te, v) :: m) ts te = unitsSoldInWindow m ts te) := by
  have hmain : ∀ (m' : List (Int × Nat)), unitsSoldInWindow m' ts te =
      ((m'.filter fun p => decide (ts < p.1 ∧ p.1 < te)).map Prod.snd).sum % 65536 := by
    intro m'
    unfold unitsSoldInWindow
    rw [unitsSoldInWindow_foldl ts te m' 0 (by decide)]
    simp only [Nat.zero_add]
  refine ⟨hmain m, ?_, ?_⟩
  · intro v
    rw [hmain ((ts, v) :: m), hmain m]
    have hcond : ¬(ts < (ts, v).1 ∧ (ts, v).1 < te) := by
      intro h
      exact absurd h.1 (lt_irrefl ts)
    rw [List.filter_cons, decide_eq_false hcond]
    simp
  · intro v
    rw [hmain ((te, v) :: m), hmain m]
    have hcond : ¬(ts < (te, v).1 ∧ (te, v).1 < te) := by
      intro h
      exact absurd h.2 (lt_irrefl te)
    rw [List.filter_cons, decide_eq_false hcond]
    simp

/-- C9 counterexample: one map entry of 5 units dated exactly at the
window start of `[0, 10)`: the spec's half-open attribution counts it,
the loop's strict `Before` does not. -/
theorem C9_counterexample :
    unitsSoldInWindow [(0, 5)] 0 10 = 0 ∧ unitsSoldInWindowSpec [(0, 5)] 0 10 = 5 := by
  constructor
  · rfl
  · rfl

end AwsAudit

namespace AwsAudit

/-- C2: for a retired, shortened reservation the store already holds,
whose stored row has recorded ancestors and whose walks complete, the
resolved pristine expiration is the oldest ancestor's start date plus
the family-shared duration minus one second — unless the youngest
descendant's previously recorded pristine (`original_end_date`)
expiration is later, in which case that later date is returned. -/
theorem C2_pristine_expiration (db : DBState) (fuel : Nat) (r stored root leaf : Reservation)
    (hstate : r.state = "retired")
    (hnotfull : r.startDate + r.duration - 1 ≠ r.endDate)
    (hstored : findReservation db r.reservationID = some stored)
    (hparent : minParentByStart db stored.reservationID ≠ none)
    (hup : walkUp db fuel stored = some root)
    (hdown : walkDown db fuel stored = some leaf) :
    getOriginalReservationExpirationDate db fuel r =
      some (max (root.startDate + r.duration - 1) leaf.originalEndDate) := by
  have hcond : ¬(r.state ≠ "retired" ∨ r.startDate + r.duration - 1 = r.endDate) := by
    rintro (h | h)
    · exact h hstate
    · exact hnotfull h
  unfold getOriginalReservationExpirationDate
  rw [if_neg hcond, hstored]
  simp only [hup, if_neg hparent, hdown]
  rcases lt_or_ge (root.startDate + r.duration - 1) leaf.originalEndDate with hlt | hge
  · rw [if_pos hlt, max_eq_right hlt.le]
  · rw [if_neg (not_lt.2 hge), max_eq_left hge]

/-- C2 witness: the three-generation fixture lineage; the youngest
descendant's recorded pristine expiration 7000 beats the root's
`1000 + 5000 − 1 = 5999`. -/
theorem C2_witness :
    getOriginalReservationExpirationDate dbLineage 5 midRes = some 7000 := by
  have h := C2_pristine_expiration dbLineage 5 midRes midRes rootRes childRes rfl
    (by decide) (by decide) (by decide) (by decide) (by decide)
  rw [h]
  decide

/-- C6 (code-bug evidence): over the corrupted two-cycle relation graph
the upward walk of `getOriginalReservationExpirationDate` never reaches
a parentless reservation: after any number of iterations it is still
running, so the resolution neither returns a value nor fails with an
error — the source loop has no iteration cap. -/
theorem C6_walk_unbounded :
    ∀ n : Nat, walkUp dbCyclic n cycA = none ∧ walkUp dbCyclic n cycB = none ∧
      getOriginalReservationExpirationDate dbCyclic n cycA = none := by
  have hA : minParentByStart dbCyclic cycA.reservationID = some cycB := by decide
  have hB : minParentByStart dbCyclic cycB.reservationID = some cycA := by decide
  have hwalk : ∀ n : Nat, walkUp dbCyclic n cycA = none ∧ walkUp dbCyclic n cycB = none := by
    intro n
    induction n with
    | zero => exact ⟨rfl, rfl⟩
    | succ n ih =>
      constructor
      · rw [walkUp, hA]
        exact ih.2
      · rw [walkUp, hB]
        exact ih.1
  intro n
  refine ⟨(hwalk n).1, (hwalk n).2, ?_⟩
  have hcond : ¬(cycA.state ≠ "retired" ∨ cycA.startDate + cycA.duration - 1 = cycA.endDate) := by
    decide
  have hfind : findReservation dbCyclic cycA.reservationID = some cycA := by decide
  unfold getOriginalReservationExpirationDate
  rw [if_neg hcond, hfind]
  simp only [(hwalk n).1]

/-- C10: with an uninitialized database handle (`DB == nil`) every
persistence operation returns `nil` at once and performs no query and no
write. -/
theorem C10_nil_db_no_effects :
    InsertIntoPGInstances none = (Except.ok (), []) ∧
      InsertIntoPGSpotPrices none = (Except.ok (), []) ∧
      (∀ listingID : Nat, InsertIntoPGReservationsListings none listingID =
        (Except.ok (), [])) ∧
      (∀ r : Reservation, InsertIntoPGReservations none r = (Except.ok (), [])) ∧
      (∀ (listingID listedRIID : Nat) (unitsSold : Nat) (gens : List Reservation)
        (pristine publish : Int) (priceSchedules : List PriceSchedule),
        InsertIntoPGReservationsListingsTerms none listingID listedRIID unitsSold gens
          pristine publish priceSchedules = (Except.ok (), [])) :=
  ⟨rfl, rfl, fun _ => rfl, fun _ => rfl, fun _ _ _ _ _ _ _ => rfl⟩

end AwsAudit
